import Mathlib

/-!
Verification of the Jay-to-Rust translator (src/jay.py) against its
natural-language specification.

The Python source is shallowly embedded below.  Python strings are Lean
strings; Python lists are Lean lists; Python dicts (the scope frames and the
function table) are association lists whose lookup returns the most recent
binding; fallible Python code (IndexError, ValueError, UnboundLocalError on
reading a never-assigned local) is modelled with Except String.  The Python
string operations (split, strip, startswith, in, join, replace, lower) are
modelled by structurally recursive functions over the character list of the
string, so that every definition evaluates by kernel reduction.  Regular
expressions and character classes are modelled over ASCII, which covers
every construct the translator handles.  A literal opening or closing brace
inside a generated Rust string is written with its escape code.
-/

namespace Jay

/-! ## Python string primitives used by jay.py -/

/-- Python s.startswith(pre). -/
def pyStartsWith (s pre : String) : Bool :=
  pre.toList.isPrefixOf s.toList

/-- Python s[n:] (drop the first n characters). -/
def pyDrop (s : String) (n : Nat) : String :=
  String.mk (s.toList.drop n)

/-- Python s[:-1] (drop the last character). -/
def pyDropLast (s : String) : String :=
  String.mk s.toList.dropLast

/-- Python s.strip(): remove leading and trailing whitespace. -/
def pyStrip (s : String) : String :=
  String.mk
    (((s.toList.dropWhile Char.isWhitespace).reverse.dropWhile
      Char.isWhitespace).reverse)

/-- Python c in s for a single character. -/
def pyContainsChar (s : String) (c : Char) : Bool :=
  s.toList.contains c

/-- The worker of Python str.split(sep): cut at each leftmost,
non-overlapping occurrence of the (non-empty) separator; cur accumulates
the current piece in reverse.  The recursion is structural on a fuel
argument so that the kernel can evaluate it; each step consumes one unit of
fuel and at least one character, so fuel equal to the length of the input
never runs out (the 0 fallback is unreachable from pySplit). -/
def splitOnFuel (sep : List Char) : Nat → List Char → List Char →
    List (List Char)
  | _, [], cur => [cur.reverse]
  | 0, l, cur => [cur.reverse ++ l]
  | fuel + 1, c :: cs, cur =>
    if !sep.isEmpty && sep.isPrefixOf (c :: cs) then
      cur.reverse :: splitOnFuel sep fuel (cs.drop (sep.length - 1)) []
    else
      splitOnFuel sep fuel cs (c :: cur)

/-- Python s.split(sep) for a non-empty separator. -/
def pySplit (s sep : String) : List String :=
  (splitOnFuel sep.toList s.toList.length s.toList []).map String.mk

/-- The worker of Python str.split() on a character predicate, keeping the
empty pieces between adjacent separator characters. -/
def splitPredAux (p : Char → Bool) : List Char → List Char → List (List Char)
  | [], cur => [cur.reverse]
  | c :: cs, cur =>
    if p c then cur.reverse :: splitPredAux p cs []
    else splitPredAux p cs (c :: cur)

/-- Python str.split() with no argument: split on whitespace runs,
dropping empty pieces. -/
def pySplitWs (s : String) : List String :=
  ((splitPredAux Char.isWhitespace s.toList []).map String.mk).filter
    (fun t => t != "")

/-- Python sep.join(parts). -/
def joinSep (sep : String) : List String → String
  | [] => ""
  | [x] => x
  | x :: y :: xs => x ++ sep ++ joinSep sep (y :: xs)

/-- Python s.rstrip(";"): remove every trailing semicolon. -/
def rstripSemis (s : String) : String :=
  String.mk (((s.toList.reverse).dropWhile (fun c => c == ';')).reverse)

/-- The normalization jay.py applies to each body line:
line.rstrip(";").strip(). -/
def normalizeLine (l : String) : String :=
  pyStrip (rstripSemis l)

/-- Python `sub in s` for a non-empty substring, expressed through split:
the substring occurs iff splitting on it yields at least two pieces. -/
def pyContains (s sub : String) : Bool :=
  2 ≤ (pySplit s sub).length

/-- A character of the regex class \w, over ASCII: letter, digit or
underscore. -/
def isWordChar (c : Char) : Bool := c.isAlphanum || c == '_'

/-- Python re.match(r"\w+\(.*\)", s): s starts with a non-empty run of word
characters, immediately followed by an opening parenthesis, and a closing
parenthesis occurs later with no newline in between (the dot of the regex
does not match a newline). -/
def isCallExpr (s : String) : Bool :=
  let cs := s.toList
  let w := cs.takeWhile isWordChar
  !w.isEmpty &&
    (match cs.drop w.length with
     | '(' :: tail => (tail.takeWhile (fun c => c != '\n')).contains ')'
     | _ => false)

/-- Python str.replace on character lists: replace every occurrence of pat,
scanning left to right without overlap.  jay.py only calls it with a
non-empty pattern; for an empty pattern this model leaves the list
unchanged.  Structural on fuel, as with splitOnFuel; each step consumes one
unit of fuel and at least one character. -/
def replaceFuel (pat rep : List Char) : Nat → List Char → List Char
  | _, [] => []
  | 0, l => l
  | fuel + 1, c :: cs =>
    if !pat.isEmpty && pat.isPrefixOf (c :: cs) then
      rep ++ replaceFuel pat rep fuel (cs.drop (pat.length - 1))
    else
      c :: replaceFuel pat rep fuel cs

/-- Python str.replace lifted to strings. -/
def pyReplace (s pat rep : String) : String :=
  String.mk (replaceFuel pat.toList rep.toList s.toList.length s.toList)

/-- Equality of Except values is decidable; used only to evaluate the
embedding at concrete inputs. -/
instance {ε α : Type} [DecidableEq ε] [DecidableEq α] :
    DecidableEq (Except ε α) := fun a b =>
  match a, b with
  | .error e, .error f =>
    if h : e = f then .isTrue (by rw [h]) else .isFalse (by simp [h])
  | .error _, .ok _ => .isFalse (by simp)
  | .ok _, .error _ => .isFalse (by simp)
  | .ok a, .ok b =>
    if h : a = b then .isTrue (by rw [h]) else .isFalse (by simp [h])

/-! ## ScopeStack (jay.py lines 17-40)

The Python list stores the innermost frame last and iterates with
reversed(); here the innermost frame is the head, so lookup scans the list
front to back.  A dict frame is an association list: declare_var conses the
new binding in front, and frame lookup returns the first match, which is the
most recent assignment, exactly the dict's observable behavior. -/

abbrev Frame := List (String × String)

abbrev ScopeStack := List Frame

/-- ScopeStack.__init__: a single empty base frame. -/
def newScopeStack : ScopeStack := [[]]

/-- ScopeStack.enter_scope. -/
def enter_scope (s : ScopeStack) : ScopeStack := [] :: s

/-- ScopeStack.exit_scope (list.pop; jay.py only calls it on a non-empty
stack, where it removes the innermost frame). -/
def exit_scope (s : ScopeStack) : ScopeStack := s.tail

/-- ScopeStack.declare_var: bind name in the innermost frame (jay.py never
calls it on an empty stack; the base frame always exists). -/
def declare_var (s : ScopeStack) (name typ : String) : ScopeStack :=
  match s with
  | [] => []
  | f :: rest => ((name, typ) :: f) :: rest

/-- ScopeStack.lookup_var: scan frames innermost to outermost, return the
first binding found, else none. -/
def lookup_var (s : ScopeStack) (name : String) : Option String :=
  match s with
  | [] => none
  | f :: rest =>
    match f.find? (fun p => p.1 == name) with
    | some p => some p.2
    | none => lookup_var rest name

/-! ## Type Mapper (jay.py lines 43-55) -/

/-- Python str.lower(), character by character (ASCII model). -/
def pyLower (s : String) : String :=
  String.mk (s.toList.map Char.toLower)

/-- jay_type_to_rust: dictionary get with default "String", on the
lower-cased source name. -/
def jay_type_to_rust (jay_type : String) : String :=
  if pyLower jay_type = "int" then "i32"
  else if pyLower jay_type = "string" then "String"
  else if pyLower jay_type = "bool" then "bool"
  else "String"

end Jay

namespace Jay

/-! ## Signature Extractor (jay.py lines 58-85) -/

/-- One parameter clause: p.strip().split(":") must yield exactly two
pieces (else ValueError), each then stripped, the type mapped. -/
def parseParam (p : String) : Except String (String × String) :=
  match pySplit (pyStrip p) ":" with
  | [pn, pt] => .ok (pyStrip pn, jay_type_to_rust (pyStrip pt))
  | _ => .error "ValueError: parameter unpack"

/-- The Python for-loop over params_str.split(","), appending each parsed
parameter; the first failure aborts. -/
def parseParams : List String → Except String (List (String × String))
  | [] => .ok []
  | p :: ps =>
    match parseParam p with
    | .error e => .error e
    | .ok pr =>
      match parseParams ps with
      | .error e => .error e
      | .ok prs => .ok (pr :: prs)

/-- The text between the first "(" of the header and the next ")"
(jay.py line 71), as a function of the pieces after the first "(": the
pieces are rejoined (undoing the full split) and cut before the first
")". -/
def paramSegment (pieces : List String) : String :=
  (pySplit (joinSep "(" pieces) ")").headD (joinSep "(" pieces)

/-- The return type of a header (jay.py lines 80-84): the text between the
first arrow and the next opening brace, stripped and mapped; the unit type
when no arrow is present. -/
def retTypeOf (header : String) : String :=
  match pySplit header "->" with
  | _ :: second :: _ =>
    jay_type_to_rust (pyStrip ((pySplit second "\x7b").headD second))
  | _ => "()"

/-- extract_func_signature: name from the second whitespace token with any
text from the first "(" on removed; the parameters parsed clause by clause
from the parenthesized segment; the return type via retTypeOf. -/
def extract_func_signature (header : String) :
    Except String (String × List (String × String) × String) :=
  match (pySplitWs header).get? 1 with
  | none => .error "IndexError: header.split()[1]"
  | some tok1 =>
    match pySplit header "(" with
    | _ :: r :: rs =>
      match (if pyStrip (paramSegment (r :: rs)) ≠ "" then
          parseParams (pySplit (paramSegment (r :: rs)) ",")
        else .ok []) with
      | .error e => .error e
      | .ok params =>
        .ok ((pySplit tok1 "(").headD tok1, params, retTypeOf header)
    | _ => .error "IndexError: no opening parenthesis"

/-- The comma-separated parameter clauses of a header, exactly as
extract_func_signature splits them (empty list when the parenthesized
segment is blank or absent). -/
def paramClauses (header : String) : List String :=
  match pySplit header "(" with
  | _ :: r :: rs =>
    if pyStrip (paramSegment (r :: rs)) ≠ "" then
      pySplit (paramSegment (r :: rs)) ","
    else []
  | _ => []

/-! ## Function Table Builder (jay.py lines 88-117)

The Python dict keyed by function name is an association list with the most
recent entry in front; tableLookup returns the first match, so a duplicate
declaration observably overwrites the earlier one, as in the source. -/

abbrev FuncSig := List (String × String) × String

abbrev FuncTable := List (String × FuncSig)

def tableLookup (t : FuncTable) (n : String) : Option FuncSig :=
  (t.find? (fun e => e.1 == n)).map (fun e => e.2)

/-- The scanning loop of build_function_table: on a line starting with
"func ", record the extracted signature, then skip forward past the next
line that starts with a closing brace.  Structural on fuel; each step
consumes one unit of fuel and at least one line, so fuel equal to the
number of lines never runs out (the 0 fallback is unreachable from
build_function_table). -/
def build_function_table_aux (acc : FuncTable) :
    Nat → List String → Except String FuncTable
  | _, [] => .ok acc
  | 0, _ :: _ => .error "fuel exhausted"
  | fuel + 1, l :: rest =>
    if pyStartsWith l "func " then
      match extract_func_signature l with
      | .error e => .error e
      | .ok (name, params, ret) =>
        build_function_table_aux ((name, (params, ret)) :: acc) fuel
          ((rest.drop
            (rest.takeWhile (fun x => !pyStartsWith x "\x7d")).length).drop 1)
    else build_function_table_aux acc fuel rest

def build_function_table (lines : List String) : Except String FuncTable :=
  build_function_table_aux [] lines.length lines

/-! ## Statement Translator (the loop body of compile_jay_func,
jay.py lines 142-198)

vname, vtype and right are Python locals of compile_jay_func that persist
across loop iterations: a later iteration can read the value a former
iteration left behind, and reading one that was never assigned raises
UnboundLocalError.  They are carried here as Option fields (none means
never assigned).  vtype can additionally hold the Python value None, stored
by the print branch when lookup fails, so its payload is itself an
Option String. -/

structure PyLocals where
  vname : Option String
  vtype : Option (Option String)
  right : Option String
deriving Repr, DecidableEq

def PyLocals.unset : PyLocals := ⟨none, none, none⟩

/-- How an f-string renders a Python value that is either a string or
None. -/
def pyShow (v : Option String) : String :=
  match v with
  | none => "None"
  | some s => s

structure StState where
  scope : ScopeStack
  body : List String
  loc : PyLocals
deriving Repr, DecidableEq

/-- The generated Rust for a translated declaration. -/
def letLine (vname vtype right : String) : String :=
  "    let " ++ vname ++ ": " ++ vtype ++ " = " ++ right ++ ";"

/-- The print emitted when the looked-up type is the owned-string type. -/
def printStrLine (inner : String) : String :=
  "    println!(\"\x7b\x7d\", " ++ inner ++ ".as_str());"

/-- The default interpolating print. -/
def printLine (inner : String) : String :=
  "    println!(\"\x7b\x7d\", " ++ inner ++ ");"

/-- The formatted string concatenation: one placeholder per operand in the
template, the operands joined as the argument list. -/
def concatFormat (operands : List String) : String :=
  "format!(" ++ "\"" ++ joinSep "" (operands.map (fun _ => "\x7b\x7d")) ++
    "\"" ++ ", " ++ joinSep ", " operands ++ ")"

/-- jay.py lines 164-165: quote the right-hand side when it is not already
a quoted literal. -/
def quoteIfNeeded (r : String) : String :=
  if pyStartsWith r "\"" then r else "\"" ++ r ++ "\""

/-- The plus-separated, trimmed operands of the (possibly quote-wrapped)
right-hand side (jay.py line 169). -/
def concatOperands (r : String) : List String :=
  (pySplit (quoteIfNeeded r) "+").map pyStrip

/-- The tail of the typed declaration branch (jay.py lines 158-179), after
vname, vtype and right have been freshly assigned: call expressions are
copied through; an owned-string right-hand side is quoted if needed, then
either turned into a formatted concatenation (when it contains a plus) or
into a to_string conversion; anything else is copied through. -/
def letTail (scope1 : ScopeStack) (body : List String)
    (vname vtype right : String) : StState :=
  if isCallExpr right then
    ⟨scope1, body ++ [letLine vname vtype right],
      ⟨some vname, some (some vtype), some right⟩⟩
  else if vtype = "String" then
    let right2 :=
      if pyContainsChar (quoteIfNeeded right) '+' then
        concatFormat (concatOperands right)
      else quoteIfNeeded right ++ ".to_string()"
    ⟨scope1, body ++ [letLine vname vtype right2],
      ⟨some vname, some (some vtype), some right2⟩⟩
  else
    ⟨scope1, body ++ [letLine vname vtype right],
      ⟨some vname, some (some vtype), some right⟩⟩

/-- The declaration branch for a line without a colon: jay.py never parses
such a line; it falls through to the emission code, which reads whatever the
locals right, vname and vtype held after the previous iteration and raises
UnboundLocalError when the one it reads first was never assigned. -/
def letUntypedStale (st : StState) : Except String StState :=
  match st.loc.right with
  | none => .error "UnboundLocalError: right"
  | some right =>
    if isCallExpr right then
      match st.loc.vname, st.loc.vtype with
      | some vname, some vt =>
        .ok ⟨st.scope, st.body ++ [letLine vname (pyShow vt) right],
          ⟨some vname, some vt, some right⟩⟩
      | none, _ => .error "UnboundLocalError: vname"
      | _, none => .error "UnboundLocalError: vtype"
    else
      match st.loc.vtype with
      | none => .error "UnboundLocalError: vtype"
      | some vt =>
        if vt = some "String" then
          let right2 :=
            if pyContainsChar (quoteIfNeeded right) '+' then
              concatFormat (concatOperands right)
            else quoteIfNeeded right ++ ".to_string()"
          match st.loc.vname with
          | none => .error "UnboundLocalError: vname"
          | some vname =>
            .ok ⟨st.scope, st.body ++ [letLine vname (pyShow vt) right2],
              ⟨some vname, some vt, some right2⟩⟩
        else
          match st.loc.vname with
          | none => .error "UnboundLocalError: vname"
          | some vname =>
            .ok ⟨st.scope, st.body ++ [letLine vname (pyShow vt) right],
              ⟨some vname, some vt, some right⟩⟩

/-- One iteration of the statement loop of compile_jay_func: normalize the
line, then classify it as declaration, return, print, standalone call, or
nothing (in that order). -/
def translateStmt (st : StState) (line0 : String) : Except String StState :=
  if pyStartsWith (normalizeLine line0) "let " then
    if pyContainsChar (pyDrop (normalizeLine line0) 4) ':' then
      match pySplit (pyDrop (normalizeLine line0) 4) "=" with
      | [left, right0] =>
        match pySplit (pyStrip left) ":" with
        | [vn0, vt0] =>
          .ok (letTail
            (declare_var st.scope (pyStrip vn0)
              (jay_type_to_rust (pyStrip vt0)))
            st.body (pyStrip vn0) (jay_type_to_rust (pyStrip vt0))
            (pyStrip right0))
        | _ => .error "ValueError: name-type unpack"
      | _ => .error "ValueError: assignment unpack"
    else
      letUntypedStale st
  else if pyStartsWith (normalizeLine line0) "return " then
    .ok ⟨st.scope,
      st.body ++ ["    return " ++ pyStrip (pyDrop (normalizeLine line0) 7) ++ ";"],
      st.loc⟩
  else if pyStartsWith (normalizeLine line0) "print(" then
    if lookup_var st.scope (pyDropLast (pyDrop (normalizeLine line0) 6)) =
        some "String" then
      .ok ⟨st.scope,
        st.body ++ [printStrLine (pyDropLast (pyDrop (normalizeLine line0) 6))],
        ⟨st.loc.vname,
          some (lookup_var st.scope (pyDropLast (pyDrop (normalizeLine line0) 6))),
          st.loc.right⟩⟩
    else
      .ok ⟨st.scope,
        st.body ++ [printLine (pyDropLast (pyDrop (normalizeLine line0) 6))],
        ⟨st.loc.vname,
          some (lookup_var st.scope (pyDropLast (pyDrop (normalizeLine line0) 6))),
          st.loc.right⟩⟩
  else if isCallExpr (normalizeLine line0) then
    .ok ⟨st.scope, st.body ++ ["    " ++ normalizeLine line0 ++ ";"], st.loc⟩
  else
    .ok st

/-! ## Function Translator (compile_jay_func, jay.py lines 120-205) -/

/-- The Rust parameter list of a generated function header. -/
def paramsRust (params : List (String × String)) : String :=
  joinSep ", " (params.map (fun p => p.1 ++ ": " ++ p.2))

/-- compile_jay_func: extract the header signature, enter a scope, declare
the parameters, translate lines[1:-1], exit the scope, and assemble the
Rust function.  The function table argument of the source is accepted and,
as in the source, never read.  Returns the generated code together with the
scope stack as the caller sees it afterwards. -/
def compile_jay_func : List String → ScopeStack → FuncTable →
    Except String (String × ScopeStack)
  | [], _, _ => .error "IndexError: lines[0]"
  | header :: restL, scope, _func_table =>
    match extract_func_signature header with
    | .error e => .error e
    | .ok (name, params, ret_type) =>
      match restL.dropLast.foldlM translateStmt
          ⟨params.foldl (fun sc p => declare_var sc p.1 p.2)
            (enter_scope scope), [], PyLocals.unset⟩ with
      | .error e => .error e
      | .ok st =>
        .ok ("pub fn " ++ name ++ "(" ++ paramsRust params ++ ") -> " ++
          ret_type ++ " \x7b\n" ++ joinSep "\n" st.body ++ "\n\x7d",
          exit_scope st.scope)

/-! ## Program Translator (parse_and_compile_jay, jay.py lines 208-253) -/

/-- The non-blank stripped lines of the input text
(jay.py line 219; splitlines modelled for newline-delimited text). -/
def pyLines (code : String) : List String :=
  ((pySplit code "\n").map pyStrip).filter (fun l => l != "")

/-- The scanning loop of parse_and_compile_jay: on a "func " line, collect
lines up to the next line starting with a closing brace, append a synthetic
closing-brace line, compile the block, and rewrite the entry point's
declaration form when the function is named main. -/
def compileBlocksAux (ft : FuncTable) :
    Nat → ScopeStack → List String → Except String (List String)
  | _, _, [] => .ok []
  | 0, _, _ :: _ => .error "fuel exhausted"
  | fuel + 1, scope, l :: rest =>
    if pyStartsWith l "func " then
      match extract_func_signature l with
      | .error e => .error e
      | .ok (name, _, _) =>
        match compile_jay_func
            (l :: (rest.takeWhile (fun x => !pyStartsWith x "\x7d") ++ ["\x7d"]))
            scope ft with
        | .error e => .error e
        | .ok (code, scope1) =>
          match compileBlocksAux ft fuel scope1
              ((rest.drop
                (rest.takeWhile
                  (fun x => !pyStartsWith x "\x7d")).length).drop 1) with
          | .error e => .error e
          | .ok rst =>
            .ok ((if name = "main" then
              pyReplace code "pub fn main" "fn main" else code) :: rst)
    else compileBlocksAux ft fuel scope rest

def compileBlocks (ft : FuncTable) (scope : ScopeStack)
    (lines : List String) : Except String (List String) :=
  compileBlocksAux ft lines.length scope lines

/-- parse_and_compile_jay: split into lines, build the function table once,
then compile every function block in source order and join the results with
blank lines. -/
def parse_and_compile_jay (jay_code : String) : Except String String :=
  match build_function_table (pyLines jay_code) with
  | .error e => .error e
  | .ok ft =>
    match compileBlocks ft newScopeStack (pyLines jay_code) with
    | .error e => .error e
    | .ok fns => .ok (joinSep "\n\n" fns)

/-! ## Theorems -/

/-- C5: entering a scope and declaring x there makes the inner binding win
on lookup; exiting that scope restores the stack exactly, so lookup again
sees the outer binding of x if any (and none otherwise), and no outer
frame's binding was mutated by the inner declaration. -/
theorem c5_scope_shadowing (s : ScopeStack) (x t : String) :
    lookup_var (declare_var (enter_scope s) x t) x = some t ∧
    exit_scope (declare_var (enter_scope s) x t) = s ∧
    lookup_var (exit_scope (declare_var (enter_scope s) x t)) x =
      lookup_var s x := by
  refine ⟨?_, rfl, rfl⟩
  simp [enter_scope, declare_var, lookup_var, List.find?]

/-- C7: the Type Mapper is total (it always returns one of the three target
names or the owned-string fallback), case-insensitive, maps int to i32,
string to String, bool to bool, and everything else to String. -/
theorem c7_type_mapper :
    (∀ t : String, jay_type_to_rust t = "i32" ∨ jay_type_to_rust t = "String" ∨
      jay_type_to_rust t = "bool") ∧
    (∀ t : String, pyLower t = "int" → jay_type_to_rust t = "i32") ∧
    (∀ t : String, pyLower t = "string" → jay_type_to_rust t = "String") ∧
    (∀ t : String, pyLower t = "bool" → jay_type_to_rust t = "bool") ∧
    (∀ t : String, pyLower t ≠ "int" → pyLower t ≠ "bool" →
      jay_type_to_rust t = "String") ∧
    (∀ s t : String, pyLower s = pyLower t →
      jay_type_to_rust s = jay_type_to_rust t) := by
  refine ⟨?_, ?_, ?_, ?_, ?_, ?_⟩
  · intro t; unfold jay_type_to_rust; split_ifs <;> simp
  · intro t h; simp [jay_type_to_rust, h]
  · intro t h; simp [jay_type_to_rust, h]
  · intro t h; simp [jay_type_to_rust, h]
  · intro t h1 h2; unfold jay_type_to_rust; split_ifs <;> simp_all
  · intro s t h; unfold jay_type_to_rust; rw [h]

theorem c7_witness :
    jay_type_to_rust "INT" = "i32" ∧ jay_type_to_rust "Float" = "String" :=
  ⟨c7_type_mapper.2.1 "INT" (by decide),
   c7_type_mapper.2.2.2.2.1 "Float" (by decide) (by decide)⟩

/-- C2 (counterexample): the typed string declaration
let s: string = f(1) + g(2) has a plus in its right-hand side, yet the
call-expression check of jay.py line 159 fires first and the right-hand
side is copied through unchanged, not as a formatted concatenation with two
placeholders as the claim requires for every plus-carrying right-hand
side. -/
theorem c2_counterexample :
    translateStmt ⟨[[]], [], PyLocals.unset⟩ "let s: string = f(1) + g(2);" =
      .ok ⟨[[("s", "String")]], ["    let s: String = f(1) + g(2);"],
        ⟨some "s", some (some "String"), some "f(1) + g(2)"⟩⟩ ∧
    "    let s: String = f(1) + g(2);" ≠
      letLine "s" "String" (concatFormat ["f(1)", "g(2)"]) := by
  exact ⟨by decide, by decide⟩

/-- C2 (amended): for a typed string declaration whose right-hand side does
not match the call-expression shape (which takes precedence and is copied
through unchanged), if the right-hand side — quote-wrapped first when it
does not already start with a quote — contains a plus, the translator emits
a formatted concatenation with exactly one placeholder per plus-separated
operand and the trimmed operands, left to right, as the argument list. -/
theorem c2_string_concat (st : StState)
    (line0 rest left right0 vn0 vt0 : String)
    (h1 : pyStartsWith (normalizeLine line0) "let " = true)
    (h2 : pyDrop (normalizeLine line0) 4 = rest)
    (h3 : pyContainsChar rest ':' = true)
    (h4 : pySplit rest "=" = [left, right0])
    (h5 : pySplit (pyStrip left) ":" = [vn0, vt0])
    (h6 : jay_type_to_rust (pyStrip vt0) = "String")
    (h7 : isCallExpr (pyStrip right0) = false)
    (h8 : pyContainsChar (quoteIfNeeded (pyStrip right0)) '+' = true) :
    translateStmt st line0 =
      .ok ⟨declare_var st.scope (pyStrip vn0) "String",
        st.body ++ [letLine (pyStrip vn0) "String"
          (concatFormat (concatOperands (pyStrip right0)))],
        ⟨some (pyStrip vn0), some (some "String"),
          some (concatFormat (concatOperands (pyStrip right0)))⟩⟩ ∧
    ((concatOperands (pyStrip right0)).map (fun _ => "\x7b\x7d")).length =
      (concatOperands (pyStrip right0)).length := by
  refine ⟨?_, by simp⟩
  unfold translateStmt letTail
  simp [h1, h2, h3, h4, h5, h6, h7, h8]

theorem c2_witness :
    translateStmt ⟨[[]], [], PyLocals.unset⟩ "let s: string = \"a\" + \"b\";" =
      .ok ⟨[[("s", "String")]],
        ["    let s: String = format!(\"\x7b\x7d\x7b\x7d\", \"a\", \"b\");"],
        ⟨some "s", some (some "String"),
          some "format!(\"\x7b\x7d\x7b\x7d\", \"a\", \"b\")"⟩⟩ := by
  have h := (c2_string_concat ⟨[[]], [], PyLocals.unset⟩
    "let s: string = \"a\" + \"b\";" "s: string = \"a\" + \"b\""
    "s: string " " \"a\" + \"b\"" "s" " string"
    (by decide) (by decide) (by decide) (by decide) (by decide) (by decide)
    (by decide) (by decide)).1
  exact h.trans (by decide)

/-- C3: for a print line, when the inner expression's type recorded in the
scope stack is the owned-string type the emitted print views the value as a
string slice; when the recorded type is anything else the value is
interpolated directly. -/
theorem c3_print (st : StState) (line0 : String)
    (h1 : pyStartsWith (normalizeLine line0) "let " = false)
    (h2 : pyStartsWith (normalizeLine line0) "return " = false)
    (h3 : pyStartsWith (normalizeLine line0) "print(" = true) :
    (lookup_var st.scope (pyDropLast (pyDrop (normalizeLine line0) 6)) =
        some "String" →
      translateStmt st line0 = .ok ⟨st.scope,
        st.body ++ [printStrLine (pyDropLast (pyDrop (normalizeLine line0) 6))],
        ⟨st.loc.vname, some (some "String"), st.loc.right⟩⟩) ∧
    (∀ t : String,
      lookup_var st.scope (pyDropLast (pyDrop (normalizeLine line0) 6)) =
        some t → t ≠ "String" →
      translateStmt st line0 = .ok ⟨st.scope,
        st.body ++ [printLine (pyDropLast (pyDrop (normalizeLine line0) 6))],
        ⟨st.loc.vname, some (some t), st.loc.right⟩⟩) := by
  constructor
  · intro hl
    unfold translateStmt
    simp [h1, h2, h3, hl]
  · intro t hl hne
    unfold translateStmt
    simp [h1, h2, h3, hl, hne]

theorem c3_witness :
    translateStmt ⟨[[("s", "String")]], [], PyLocals.unset⟩ "print(s)" =
      .ok ⟨[[("s", "String")]], ["    println!(\"\x7b\x7d\", s.as_str());"],
        ⟨none, some (some "String"), none⟩⟩ ∧
    translateStmt ⟨[[("n", "i32")]], [], PyLocals.unset⟩ "print(n)" =
      .ok ⟨[[("n", "i32")]], ["    println!(\"\x7b\x7d\", n);"],
        ⟨none, some (some "i32"), none⟩⟩ := by
  constructor
  · have h := (c3_print ⟨[[("s", "String")]], [], PyLocals.unset⟩ "print(s)"
      (by decide) (by decide) (by decide)).1 (by decide)
    exact h.trans (by decide)
  · have h := (c3_print ⟨[[("n", "i32")]], [], PyLocals.unset⟩ "print(n)"
      (by decide) (by decide) (by decide)).2 "i32" (by decide) (by decide)
    exact h.trans (by decide)

/-- C4 (counterexample): the claim predicts that the untyped declaration
let x = add(1, 2), with add recorded in the Function Table with return
type i32, is emitted with the table's return type; jay.py instead has no
code path for a declaration without a colon — it falls through to the
emission code and reads the local variable right, which no earlier
iteration has assigned, so the whole translation aborts with
UnboundLocalError instead of emitting anything. -/
theorem c4_counterexample :
    parse_and_compile_jay
      ("func add(a: int, b: int) -> int \x7b\nreturn a + b\n\x7d\n" ++
       "func main() \x7b\nlet x = add(1, 2)\nprint(x)\n\x7d") =
      .error "UnboundLocalError: right" := by
  decide

/-- C4 (amended): a body line of the form let name = expr with no type
annotation is not supported: the translator never parses its right-hand
side and never consults the Function Table; when no earlier statement of
the same function has assigned the internal local right (no earlier typed
declaration), translation of the function fails with an UnboundLocalError
instead of emitting a declaration. -/
theorem c4_untyped_let_crashes (st : StState) (line0 : String)
    (h1 : pyStartsWith (normalizeLine line0) "let " = true)
    (h2 : pyContainsChar (pyDrop (normalizeLine line0) 4) ':' = false)
    (h3 : st.loc.right = none) :
    translateStmt st line0 = .error "UnboundLocalError: right" := by
  unfold translateStmt letUntypedStale
  simp [h1, h2, h3]

theorem c4_witness :
    translateStmt ⟨[[]], [], PyLocals.unset⟩ "let x = add(1, 2)" =
      .error "UnboundLocalError: right" :=
  c4_untyped_let_crashes ⟨[[]], [], PyLocals.unset⟩ "let x = add(1, 2)"
    (by decide) (by decide) (by decide)

/-- C10: a print whose inner expression is bound in no scope frame gets
none from the lookup, and the translator still totally produces the default
interpolating print rather than failing. -/
theorem c10_print_unbound (st : StState) (line0 : String)
    (h1 : pyStartsWith (normalizeLine line0) "let " = false)
    (h2 : pyStartsWith (normalizeLine line0) "return " = false)
    (h3 : pyStartsWith (normalizeLine line0) "print(" = true)
    (h4 : lookup_var st.scope (pyDropLast (pyDrop (normalizeLine line0) 6)) =
      none) :
    translateStmt st line0 = .ok ⟨st.scope,
      st.body ++ [printLine (pyDropLast (pyDrop (normalizeLine line0) 6))],
      ⟨st.loc.vname, some none, st.loc.right⟩⟩ := by
  unfold translateStmt
  simp [h1, h2, h3, h4]

/-- A successful parseParams run relates clauses and parsed parameters
pointwise. -/
theorem parseParams_forall₂ :
    ∀ (l : List String) (ps : List (String × String)),
      parseParams l = .ok ps →
      List.Forall₂ (fun c p => parseParam c = .ok p) l ps := by
  intro l
  induction l with
  | nil =>
    intro ps h
    unfold parseParams at h
    injection h with h'
    subst h'
    exact List.Forall₂.nil
  | cons c cs ih =>
    intro ps h
    unfold parseParams at h
    cases hc : parseParam c with
    | error e => rw [hc] at h; exact Except.noConfusion h
    | ok pr =>
      rw [hc] at h
      cases hcs : parseParams cs with
      | error e => rw [hcs] at h; exact Except.noConfusion h
      | ok prs =>
        rw [hcs] at h
        injection h with h'
        subst h'
        exact List.Forall₂.cons hc (ih prs hcs)

/-- A successfully parsed parameter's type is the image of some source
name under the Type Mapper. -/
theorem parseParam_shape (c : String) (p : String × String)
    (h : parseParam c = .ok p) : ∃ t : String, p.2 = jay_type_to_rust t := by
  unfold parseParam at h
  split at h
  · rename_i pn pt _
    injection h with h'
    exact ⟨pyStrip pt, by rw [← h']⟩
  · exact Except.noConfusion h

/-- Each right-hand member of a Forall₂ has a related left-hand member. -/
theorem forall₂_mem_right {α β : Type} {R : α → β → Prop} :
    ∀ {l1 : List α} {l2 : List β}, List.Forall₂ R l1 l2 →
      ∀ b ∈ l2, ∃ a ∈ l1, R a b := by
  intro l1 l2 h
  induction h with
  | nil => intro b hb; simp at hb
  | cons hR _ ih =>
    intro b hb
    rcases List.mem_cons.mp hb with hb' | hb'
    · subst hb'
      exact ⟨_, List.mem_cons_self _ _, hR⟩
    · obtain ⟨a, ha, hr⟩ := ih b hb'
      exact ⟨a, List.mem_cons_of_mem _ ha, hr⟩

/-- C6: whenever extract_func_signature succeeds, the parsed parameter
list has exactly one entry per comma-separated clause of the parenthesized
segment (zero when that segment is blank), every entry is the parse of its
clause with the type mapped through the Type Mapper, and a header with no
arrow gets the unit return type. -/
theorem c6_signature (header n : String) (ps : List (String × String))
    (r : String)
    (h : extract_func_signature header = .ok (n, ps, r)) :
    ps.length = (paramClauses header).length ∧
    List.Forall₂ (fun c p => parseParam c = .ok p) (paramClauses header) ps ∧
    (∀ p ∈ ps, ∃ srcT : String, p.2 = jay_type_to_rust srcT) ∧
    (pyContains header "->" = false → r = "()") := by
  unfold extract_func_signature at h
  split at h
  · exact Except.noConfusion h
  · rename_i tok1 heq1
    split at h
    · rename_i x r' rs heq2
      split at h
      · exact Except.noConfusion h
      · rename_i params heqP
        injection h with h'
        have hr : retTypeOf header = r := congrArg (fun z => z.2.2) h'
        have hps : params = ps := congrArg (fun z => z.2.1) h'
        subst hps
        have hclauses : paramClauses header =
            (if pyStrip (paramSegment (r' :: rs)) ≠ "" then
              pySplit (paramSegment (r' :: rs)) "," else []) := by
          unfold paramClauses
          rw [heq2]
        have hfa : List.Forall₂ (fun c p => parseParam c = .ok p)
            (paramClauses header) params := by
          rw [hclauses]
          by_cases hcond : pyStrip (paramSegment (r' :: rs)) ≠ ""
          · rw [if_pos hcond]
            rw [if_pos hcond] at heqP
            exact parseParams_forall₂ _ _ heqP
          · rw [if_neg hcond]
            rw [if_neg hcond] at heqP
            injection heqP with hP
            rw [← hP]
            exact List.Forall₂.nil
        refine ⟨hfa.length_eq.symm, hfa, ?_, ?_⟩
        · intro p hp
          obtain ⟨c, _, hc⟩ := forall₂_mem_right hfa p hp
          exact parseParam_shape c p hc
        · intro hnoarrow
          rw [← hr]
          unfold pyContains at hnoarrow
          unfold retTypeOf
          cases harrow : pySplit header "->" with
          | nil => rfl
          | cons a tl =>
            cases tl with
            | nil => rfl
            | cons b tl2 =>
              rw [harrow] at hnoarrow
              simp at hnoarrow
    · exact Except.noConfusion h

theorem c6_witness :
    (paramClauses "func add(a: int, b: string) -> int \x7b").length = 2 ∧
    List.Forall₂ (fun c p => parseParam c = .ok p)
      (paramClauses "func add(a: int, b: string) -> int \x7b")
      [("a", "i32"), ("b", "String")] ∧
    "()" = "()" := by
  have h := c6_signature "func main() \x7b" "main" [] "()" (by decide)
  have h2 := c6_signature "func add(a: int, b: string) -> int \x7b" "add"
    [("a", "i32"), ("b", "String")] "i32" (by decide)
  exact ⟨h2.1.symm, h2.2.1, h.2.2.2 (by decide)⟩

/-- A well-formed function block, as the scanning loops delimit one: a
header line starting with the function keyword whose signature extracts to
sg, body lines none of which starts with a closing brace, and the closing
brace line. -/
def blockOf (b : List String) (sg : String × FuncSig) : Prop :=
  ∃ h body, b = h :: (body ++ ["\x7d"]) ∧ pyStartsWith h "func " = true ∧
    (∀ l ∈ body, pyStartsWith l "\x7d" = false) ∧
    extract_func_signature h = .ok (sg.1, sg.2.1, sg.2.2)

/-- takeWhile stops exactly at the delimiter when everything before it
satisfies the predicate. -/
theorem takeWhile_middle {α : Type} (p : α → Bool) (body : List α) (c : α)
    (rest : List α) (hb : ∀ l ∈ body, p l = true) (hc : p c = false) :
    (body ++ c :: rest).takeWhile p = body := by
  induction body with
  | nil => simp [List.takeWhile_cons, hc]
  | cons a as ih =>
    have ha := hb a (by simp)
    rw [List.cons_append, List.takeWhile_cons, ha]
    simp only [if_true]
    rw [ih (fun l hl => hb l (by simp [hl]))]

/-- Scanning one well-formed block records its signature and moves on to
the rest of the input. -/
theorem build_aux_block (b : List String) (sg : String × FuncSig)
    (hb : blockOf b sg) (acc : FuncTable) (fuel : Nat)
    (rest' : List String) :
    build_function_table_aux acc (fuel + 1) (b ++ rest') =
    build_function_table_aux ((sg.1, sg.2) :: acc) fuel rest' := by
  obtain ⟨h, body, rfl, hfunc, hbody, hext⟩ := hb
  have hlist : (h :: (body ++ ["\x7d"])) ++ rest' =
      h :: (body ++ "\x7d" :: rest') := by simp
  rw [hlist]
  have htw : (body ++ "\x7d" :: rest').takeWhile
      (fun x => !pyStartsWith x "\x7d") = body :=
    takeWhile_middle _ body _ rest'
      (fun l hl => by rw [hbody l hl]; rfl) (by decide)
  conv_lhs => unfold build_function_table_aux
  simp only [hfunc, if_true, hext, htw, List.drop_left, List.drop_succ_cons,
    List.drop_zero]

/-- Exhausted input returns the accumulated table whatever fuel is left. -/
theorem build_aux_nil (acc : FuncTable) (fuel : Nat) :
    build_function_table_aux acc fuel [] = .ok acc := by
  cases fuel <;> rfl

/-- Scanning a flattened list of well-formed blocks records every block's
signature, most recent first, independent of order. -/
theorem build_table_blocks (blocks : List (List String))
    (sigs : List (String × FuncSig))
    (hf : List.Forall₂ blockOf blocks sigs) :
    ∀ (acc : FuncTable) (fuel : Nat),
      build_function_table_aux acc (blocks.length + fuel) blocks.flatten =
      .ok (sigs.foldl (fun t sg => (sg.1, sg.2) :: t) acc) := by
  induction hf with
  | nil =>
    intro acc fuel
    simpa using build_aux_nil acc fuel
  | @cons b sg bs sgs hb _ ih =>
    intro acc fuel
    have hlen : (b :: bs).length + fuel = (bs.length + fuel) + 1 := by
      simp; omega
    rw [hlen, List.flatten_cons, build_aux_block b sg hb acc _ bs.flatten]
    exact ih ((sg.1, sg.2) :: acc) fuel

/-- Folding cons-insertion reverses the list onto the accumulator. -/
theorem foldl_cons_rev (sigs : FuncTable) :
    ∀ acc : FuncTable,
      sigs.foldl (fun t sg => (sg.1, sg.2) :: t) acc = sigs.reverse ++ acc := by
  induction sigs with
  | nil => intro acc; simp
  | cons a as ih =>
    intro acc
    rw [List.foldl_cons, ih ((a.1, a.2) :: acc), List.reverse_cons,
      List.append_assoc]
    rfl

/-- In a table whose keys are distinct, find? locates each entry. -/
theorem find_nodup (l : FuncTable) :
    (l.map (fun e => e.1)).Nodup →
    ∀ sg ∈ l, l.find? (fun e => e.1 == sg.1) = some sg := by
  induction l with
  | nil => intro _ sg hsg; simp at hsg
  | cons a as ih =>
    intro hnd sg hsg
    rw [List.map_cons, List.nodup_cons] at hnd
    rcases List.mem_cons.mp hsg with hEq | hmem
    · subst hEq
      exact List.find?_cons_of_pos _ (by simp)
    · have hne : a.1 ≠ sg.1 := by
        intro hbad
        exact hnd.1 (hbad ▸ List.mem_map_of_mem (fun e => e.1) hmem)
      rw [List.find?_cons_of_neg _ (by simp [hne])]
      exact ih hnd.2 sg hmem

/-- Every well-formed block is non-empty, so the flattened program has at
least one line per block. -/
theorem blocks_length_le (blocks : List (List String))
    (sigs : List (String × FuncSig))
    (hf : List.Forall₂ blockOf blocks sigs) :
    blocks.length ≤ blocks.flatten.length := by
  induction hf with
  | nil => simp
  | @cons b sg bs sgs hb _ ih =>
    obtain ⟨h, body, rfl, _, _, _⟩ := hb
    simp only [List.flatten_cons, List.length_append, List.length_cons]
    simp at ih ⊢
    omega

/-- C1: the Function Table is built by one pass over the whole program's
lines (build_function_table, run by parse_and_compile_jay before any block
is compiled); for a program made of well-formed function blocks with
distinct names it succeeds and records, for every declared function —
wherever it is declared in the file — exactly the extracted signature, so a
later-declared g's mapped return type is available while an earlier f is
translated. -/
theorem c1_function_table (blocks : List (List String))
    (sigs : List (String × FuncSig))
    (hf : List.Forall₂ blockOf blocks sigs)
    (hnd : (sigs.map (fun sg => sg.1)).Nodup) :
    ∃ tbl, build_function_table blocks.flatten = .ok tbl ∧
      ∀ sg ∈ sigs, tableLookup tbl sg.1 = some sg.2 := by
  obtain ⟨k, hk⟩ := Nat.exists_eq_add_of_le (blocks_length_le blocks sigs hf)
  refine ⟨sigs.reverse, ?_, ?_⟩
  · unfold build_function_table
    rw [hk, build_table_blocks blocks sigs hf [] k, foldl_cons_rev]
    simp
  · intro sg hsg
    unfold tableLookup
    rw [find_nodup sigs.reverse
      (by rw [List.map_reverse]; exact List.nodup_reverse.mpr hnd) sg
      (List.mem_reverse.mpr hsg)]
    rfl

theorem c1_witness :
    ∃ tbl,
      build_function_table
        ["func f() -> int \x7b", "let x: int = g()", "\x7d",
         "func g() -> string \x7b", "return \"hi\"", "\x7d"] = .ok tbl ∧
      tableLookup tbl "g" = some ([], "String") ∧
      tableLookup tbl "f" = some ([], "i32") := by
  have h := c1_function_table
    [["func f() -> int \x7b", "let x: int = g()", "\x7d"],
     ["func g() -> string \x7b", "return \"hi\"", "\x7d"]]
    [("f", ([], "i32")), ("g", ([], "String"))]
    (by
      refine List.Forall₂.cons ?_ (List.Forall₂.cons ?_ List.Forall₂.nil)
      · exact ⟨"func f() -> int \x7b", ["let x: int = g()"], rfl,
          by decide, by decide, by decide⟩
      · exact ⟨"func g() -> string \x7b", ["return \"hi\""], rfl,
          by decide, by decide, by decide⟩)
    (by decide)
  obtain ⟨tbl, hb, hl⟩ := h
  exact ⟨tbl, hb, hl ("g", ([], "String")) (by simp),
    hl ("f", ([], "i32")) (by simp)⟩

/-- A list is a prefix of itself followed by anything. -/
theorem isPrefixOf_append (l r : List Char) : l.isPrefixOf (l ++ r) = true := by
  induction l with
  | nil => simp [List.isPrefixOf]
  | cons a as ih => simp [List.isPrefixOf, ih]

/-- One replacement step at an occurrence of the pattern. -/
theorem replaceFuel_hit (p : Char) (ps rep t : List Char) (n : Nat) :
    replaceFuel (p :: ps) rep (n + 1) ((p :: ps) ++ t) =
    rep ++ replaceFuel (p :: ps) rep n t := by
  have hpre : (p :: ps).isPrefixOf (p :: (ps ++ t)) = true := by
    have h := isPrefixOf_append (p :: ps) t
    rw [List.cons_append] at h
    exact h
  have hdrop : List.drop ((p :: ps).length - 1) (ps ++ t) = t := by
    simp only [List.length_cons, Nat.add_sub_cancel]
    exact List.drop_left ps t
  conv_lhs => rw [List.cons_append, replaceFuel]
  simp only [hpre, List.isEmpty_cons, Bool.not_false, Bool.true_and, if_true,
    hdrop]

/-- One scanning step past a character that cannot start the pattern. -/
theorem replaceFuel_head_miss (p : Char) (ps rep : List Char) (c : Char)
    (cs : List Char) (n : Nat) (hne : (p == c) = false) :
    replaceFuel (p :: ps) rep (n + 1) (c :: cs) =
    c :: replaceFuel (p :: ps) rep n cs := by
  have hpre : (p :: ps).isPrefixOf (c :: cs) = false := by
    simp [List.isPrefixOf, hne]
  conv_lhs => rw [replaceFuel]
  simp [hpre]

/-- toList distributes over string append. -/
theorem toList_append (a b : String) :
    (a ++ b).toList = a.toList ++ b.toList := by
  obtain ⟨la⟩ := a
  obtain ⟨lb⟩ := b
  rfl

/-- Replacing "pub fn main" in a character list that starts with
"pub fn main(" rewrites the head occurrence and keeps the parenthesis. -/
theorem replace_main_prefix (tl : List Char) :
    ∃ t2 : List Char,
      replaceFuel "pub fn main".toList "fn main".toList
        ("pub fn main(".toList ++ tl).length ("pub fn main(".toList ++ tl) =
      "fn main(".toList ++ t2 := by
  refine ⟨replaceFuel "pub fn main".toList "fn main".toList
    (10 + tl.length) tl, ?_⟩
  have hsplit : ("pub fn main(".toList ++ tl : List Char) =
      "pub fn main".toList ++ ('(' :: tl) := by
    rw [show ("pub fn main(".toList : List Char) =
      "pub fn main".toList ++ ['('] from rfl, List.append_assoc]
    rfl
  rw [hsplit]
  have hlen : ("pub fn main".toList ++ ('(' :: tl)).length =
      ((10 + tl.length) + 1) + 1 := by
    simp [List.length_append]
    omega
  rw [hlen]
  rw [show ("pub fn main".toList : List Char) =
    'p' :: ("ub fn main".toList) from rfl]
  rw [replaceFuel_hit]
  rw [replaceFuel_head_miss _ _ _ _ _ _ (by decide)]
  rfl

/-- The same fact lifted to pyReplace on strings. -/
theorem pyReplace_pub_main (tail : String) :
    ∃ t2 : String,
      pyReplace ("pub fn main(" ++ tail) "pub fn main" "fn main" =
      "fn main(" ++ t2 := by
  obtain ⟨tl⟩ := tail
  obtain ⟨t2, ht2⟩ := replace_main_prefix tl
  refine ⟨String.mk t2, ?_⟩
  unfold pyReplace
  rw [show ("pub fn main(" ++ String.mk tl).toList =
    "pub fn main(".toList ++ tl from rfl]
  rw [ht2]
  rfl

/-- Regrouping the generated header around the entry-point name. -/
theorem pub_main_regroup (X : String) :
    "pub fn " ++ ("main" ++ ("(" ++ X)) = "pub fn main(" ++ X := by
  rw [← String.append_assoc, ← String.append_assoc]
  rfl

/-- The code compile_jay_func emits for a function whose header extracts to
(n, ps, r): the exported Rust declaration form with the mapped parameter
list and return type. -/
theorem compile_fn_shape (hd : String) (tl : List String) (sc : ScopeStack)
    (ft : FuncTable) (code : String) (sc' : ScopeStack)
    (n : String) (ps : List (String × String)) (r : String)
    (hext : extract_func_signature hd = .ok (n, ps, r))
    (hc : compile_jay_func (hd :: tl) sc ft = .ok (code, sc')) :
    ∃ bodyStr, code = "pub fn " ++ n ++ "(" ++ paramsRust ps ++ ") -> " ++
      r ++ " \x7b\n" ++ bodyStr ++ "\n\x7d" := by
  simp only [compile_jay_func] at hc
  rw [hext] at hc
  dsimp only at hc
  split at hc
  · exact Except.noConfusion hc
  · rename_i st heqf
    injection hc with hc'
    exact ⟨joinSep "\n" st.body, (congrArg Prod.fst hc').symm⟩

/-- The per-block form of every emitted function, by induction on the
scanning fuel. -/
theorem compileBlocksAux_forms (ft : FuncTable) :
    ∀ (fuel : Nat) (sc : ScopeStack) (lines codes : List String),
      compileBlocksAux ft fuel sc lines = .ok codes →
      ∀ c ∈ codes,
        (∃ t2, c = "fn main(" ++ t2) ∨
        (∃ n ps r bodyStr, n ≠ "main" ∧
          c = "pub fn " ++ n ++ "(" ++ paramsRust ps ++ ") -> " ++ r ++
            " \x7b\n" ++ bodyStr ++ "\n\x7d") := by
  intro fuel
  induction fuel with
  | zero =>
    intro sc lines codes h c hc
    cases lines with
    | nil =>
      injection h with h'
      subst h'
      simp at hc
    | cons l rest => exact Except.noConfusion h
  | succ m ih =>
    intro sc lines codes h c hc
    cases lines with
    | nil =>
      injection h with h'
      subst h'
      simp at hc
    | cons l rest =>
      unfold compileBlocksAux at h
      split at h
      · split at h
        · exact Except.noConfusion h
        · rename_i name ps' r' heqExt
          split at h
          · exact Except.noConfusion h
          · rename_i code scope1 heqComp
            split at h
            · exact Except.noConfusion h
            · rename_i rst heqRec
              injection h with h'
              subst h'
              rcases List.mem_cons.mp hc with hEq | hMem
              · subst hEq
                obtain ⟨bodyStr, hcode⟩ :=
                  compile_fn_shape l _ sc ft code scope1 name ps' r'
                    heqExt heqComp
                by_cases hname : name = "main"
                · left
                  rw [if_pos hname]
                  subst hname
                  have hmain : code = "pub fn main(" ++
                      (paramsRust ps' ++ (") -> " ++ (r' ++ (" \x7b\n" ++
                        (bodyStr ++ "\n\x7d"))))) := by
                    rw [hcode]
                    simp only [String.append_assoc]
                    exact pub_main_regroup _
                  rw [hmain]
                  exact pyReplace_pub_main _
                · right
                  rw [if_neg hname]
                  exact ⟨name, ps', r', bodyStr, hname, hcode⟩
              · exact ih scope1 _ rst heqRec c hMem
      · exact ih sc rest codes h c hc

/-- C8: every function emitted by the program scanning loop is in the
default exported form pub fn n(params) -> ret, except that the block whose
extracted name is the entry point main comes out in the entry-point form
fn main (the pub fn main prefix is rewritten). -/
theorem c8_entry_point (ft : FuncTable) (sc : ScopeStack)
    (lines codes : List String)
    (h : compileBlocks ft sc lines = .ok codes) :
    ∀ c ∈ codes,
      (∃ t2, c = "fn main(" ++ t2) ∨
      (∃ n ps r bodyStr, n ≠ "main" ∧
        c = "pub fn " ++ n ++ "(" ++ paramsRust ps ++ ") -> " ++ r ++
          " \x7b\n" ++ bodyStr ++ "\n\x7d") :=
  compileBlocksAux_forms ft lines.length sc lines codes h

theorem c8_witness :
    ((∃ t2, "fn main() -> () \x7b\n\n\x7d" = "fn main(" ++ t2) ∨
     (∃ n ps r bodyStr, n ≠ "main" ∧
       "fn main() -> () \x7b\n\n\x7d" = "pub fn " ++ n ++ "(" ++
         paramsRust ps ++ ") -> " ++ r ++ " \x7b\n" ++ bodyStr ++
         "\n\x7d")) ∧
    ((∃ t2, "pub fn helper() -> i32 \x7b\n    return 1;\n\x7d" =
        "fn main(" ++ t2) ∨
     (∃ n ps r bodyStr, n ≠ "main" ∧
       "pub fn helper() -> i32 \x7b\n    return 1;\n\x7d" = "pub fn " ++ n ++
         "(" ++ paramsRust ps ++ ") -> " ++ r ++ " \x7b\n" ++ bodyStr ++
         "\n\x7d")) := by
  have h := c8_entry_point [] newScopeStack
    ["func main() \x7b", "\x7d", "func helper() -> int \x7b", "return 1",
     "\x7d"]
    ["fn main() -> () \x7b\n\n\x7d",
     "pub fn helper() -> i32 \x7b\n    return 1;\n\x7d"]
    (by decide)
  exact ⟨h _ (by simp), h _ (by simp)⟩

/-- A line on which translateStmt acts as the identity can be removed from
a statement list without changing the translation fold. -/
theorem foldlM_translate_skip (mid : String)
    (hmid : ∀ s : StState, translateStmt s mid = .ok s) :
    ∀ (pre post : List String) (b : StState),
      (pre ++ mid :: post).foldlM translateStmt b =
      (pre ++ post).foldlM translateStmt b := by
  intro pre
  induction pre with
  | nil =>
    intro post b
    rw [List.nil_append, List.nil_append, List.foldlM_cons, hmid b]
    rfl
  | cons a as ih =>
    intro post b
    rw [List.cons_append, List.cons_append, List.foldlM_cons, List.foldlM_cons]
    cases h : translateStmt b a with
    | error e => rfl
    | ok b' =>
      show (Except.ok b' >>= fun x => (as ++ mid :: post).foldlM translateStmt x) =
        (Except.ok b' >>= fun x => (as ++ post).foldlM translateStmt x)
      show (as ++ mid :: post).foldlM translateStmt b' =
        (as ++ post).foldlM translateStmt b'
      exact ih post b'

/-- C9: a body line matching none of the recognized statement shapes (let,
return, print, standalone call) is translated to nothing, with no error and
no state change, and removing it from a function body leaves the
translation of the whole function unchanged. -/
theorem c9_unrecognized_dropped (line0 : String)
    (h1 : pyStartsWith (normalizeLine line0) "let " = false)
    (h2 : pyStartsWith (normalizeLine line0) "return " = false)
    (h3 : pyStartsWith (normalizeLine line0) "print(" = false)
    (h4 : isCallExpr (normalizeLine line0) = false) :
    (∀ st : StState, translateStmt st line0 = .ok st) ∧
    (∀ (hd : String) (pre post : List String) (sc : ScopeStack)
      (ft : FuncTable),
      compile_jay_func (hd :: ((pre ++ line0 :: post) ++ ["\x7d"])) sc ft =
      compile_jay_func (hd :: ((pre ++ post) ++ ["\x7d"])) sc ft) := by
  have hid : ∀ st : StState, translateStmt st line0 = .ok st := by
    intro st
    unfold translateStmt
    simp [h1, h2, h3, h4]
  refine ⟨hid, ?_⟩
  intro hd pre post sc ft
  unfold compile_jay_func
  have e1 : ((pre ++ line0 :: post) ++ ["\x7d"]).dropLast = pre ++ line0 :: post := by
    rw [List.dropLast_concat]
  have e2 : ((pre ++ post) ++ ["\x7d"]).dropLast = pre ++ post := by
    rw [List.dropLast_concat]
  simp only [e1, e2, foldlM_translate_skip line0 hid pre post]

theorem c9_witness :
    translateStmt ⟨[[]], [], PyLocals.unset⟩ "if x > 0 \x7b" =
      .ok ⟨[[]], [], PyLocals.unset⟩ ∧
    compile_jay_func
      ["func main() \x7b", "let y: int = 1", "if x > 0 \x7b", "print(y)", "\x7d"]
      newScopeStack [] =
    compile_jay_func
      ["func main() \x7b", "let y: int = 1", "print(y)", "\x7d"]
      newScopeStack [] := by
  have h := c9_unrecognized_dropped "if x > 0 \x7b"
    (by decide) (by decide) (by decide) (by decide)
  exact ⟨h.1 _,
    h.2 "func main() \x7b" ["let y: int = 1"] ["print(y)"] newScopeStack []⟩

theorem c10_witness :
    translateStmt ⟨[[]], [], PyLocals.unset⟩ "print(42)" =
      .ok ⟨[[]], ["    println!(\"\x7b\x7d\", 42);"],
        ⟨none, some none, none⟩⟩ := by
  have h := c10_print_unbound ⟨[[]], [], PyLocals.unset⟩ "print(42)"
    (by decide) (by decide) (by decide) (by decide)
  exact h.trans (by decide)

end Jay
